import Mathlib

/-!
Verification of the wortex process registry (Rust sources under `src/`).

The Rust code is shallowly embedded: SQLite tables become Lean lists of row
structures kept in rowid (insertion) order, `rusqlite` queries become pure list
operations, uuids are modelled as naturals rendered in decimal where the code
stores them as TEXT, and rfc3339 timestamps are modelled as naturals rendered
in decimal.  Fallible operations return `Except String`.
-/

namespace Wortex

/-- Command variant from `src/state.rs` (`Command`): either a Claude invocation
with a prompt and optional agent, or a raw shell command. -/
inductive Command where
  | claude (prompt : String) (agent : Option String)
  | raw (cmd : String)
deriving DecidableEq, Inhabited

/-- Exit-kill policy from `src/state.rs` (`ExitKill`): kill on a listed set of
exit codes, or on any exit code. -/
inductive ExitKill where
  | codes (cs : List Int)
  | any
deriving DecidableEq, Inhabited

/-- Embeds `ExitKill::matches` (src/state.rs:58-63). -/
def ExitKill.matches (ek : ExitKill) (code : Int) : Bool :=
  match ek with
  | ExitKill.any => true
  | ExitKill.codes cs => cs.contains code

/-- Embeds the exit-kill decision of `run::execute` (src/commands/run.rs:44-48):
`entry.exit_kill.as_ref().map(|ek| ek.matches(exit_code)).unwrap_or(false)`. -/
def shouldKill (ek : Option ExitKill) (code : Int) : Bool :=
  (ek.map (fun p => p.matches code)).getD false

/-- In-memory registry entry from `src/state.rs` (`Entry`).  The uuid is a
natural, the path a string, the creation time a natural. -/
structure Entry where
  id : Nat
  project : String
  branch : String
  path : String
  tmux_session : String
  tmux_window : String
  command : Command
  exit_kill : Option ExitKill
  exit_code : Option Int
  created_at : Nat
deriving DecidableEq, Inhabited

/-- Flat-file state from `src/state.rs` (`State`). -/
structure State where
  version : Nat
  entries : List Entry
deriving DecidableEq, Inhabited

/-- Embeds `state::add_entry` (src/state.rs:127-133): push the entry, no
domain validation. -/
def add_entry (st : State) (e : Entry) : State :=
  { st with entries := st.entries ++ [e] }

/-- Embeds `state::remove_entry` (src/state.rs:135-141): retain entries whose
id differs. -/
def remove_entry (st : State) (id : Nat) : State :=
  { st with entries := st.entries.filter (fun e => !(e.id == id)) }

/-- Embeds `state::update_exit_code` (src/state.rs:143-151): set the exit code
of the entry with the given id, if present. -/
def update_exit_code (st : State) (id : Nat) (code : Int) : State :=
  { st with entries := st.entries.map (fun e =>
      if e.id == id then { e with exit_code := some code } else e) }

/-- Embeds `state::find_by_id` (src/state.rs:153-156). -/
def find_by_id (st : State) (id : Nat) : Option Entry :=
  st.entries.find? (fun e => e.id == id)

/-- Embeds `state::find_by_branch` (src/state.rs:158-161): first entry, in
stored order, whose branch matches. -/
def find_by_branch (st : State) (branch : String) : Option Entry :=
  st.entries.find? (fun e => e.branch == branch)

/-- Stale-detector output element from `src/commands/cleanup.rs` (`StaleEntry`). -/
structure StaleEntry where
  id : Nat
  branch : String
  reasons : List String
deriving DecidableEq, Inhabited

/-- Loop of `find_stale_entries` (src/commands/cleanup.rs:50-83): walk the
entries carrying the set of branches already seen (modelled as a list used
only through membership). -/
def find_stale_entries_go (path_exists window_exists : Entry → Bool) :
    List Entry → List String → List StaleEntry
  | [], _ => []
  | e :: rest, seen =>
    (if ((if path_exists e then [] else ["worktree missing"]) ++
         (if window_exists e then [] else ["window missing"]) ++
         (if seen.contains e.branch then ["duplicate branch"] else [])).isEmpty
      then []
      else [{ id := e.id, branch := e.branch,
              reasons :=
                (if path_exists e then [] else ["worktree missing"]) ++
                (if window_exists e then [] else ["window missing"]) ++
                (if seen.contains e.branch then ["duplicate branch"] else []) }]) ++
    find_stale_entries_go path_exists window_exists rest (e.branch :: seen)

/-- Embeds `find_stale_entries` (src/commands/cleanup.rs:50-83). -/
def find_stale_entries (entries : List Entry)
    (path_exists window_exists : Entry → Bool) : List StaleEntry :=
  find_stale_entries_go path_exists window_exists entries []

/-- Spec-side formula for the Stale Detector, generalized over a list `seen`
of branches considered already seen before the whole pass: the flag produced
for position `i` of the input, computed from the two predicates and from the
branches of the strictly earlier entries only. -/
def staleSpecAtSeen (p w : Entry → Bool) (seen : List String)
    (entries : List Entry) (i : Nat) : Option StaleEntry :=
  let e := entries.getD i default
  let reasons :=
    (if p e then [] else ["worktree missing"]) ++
    (if w e then [] else ["window missing"]) ++
    (if seen.contains e.branch ||
        ((entries.take i).map Entry.branch).contains e.branch
      then ["duplicate branch"] else [])
  if reasons.isEmpty then none
  else some { id := e.id, branch := e.branch, reasons := reasons }

/-- Spec-side formula for the Stale Detector: the flag produced for position
`i` of the input.  An entry is flagged iff its directory or window predicate
is false or its branch occurs among the branches of strictly earlier entries;
its reasons are the triggered condition strings in the fixed order
worktree missing / window missing / duplicate branch. -/
def staleSpecAt (p w : Entry → Bool) (entries : List Entry) (i : Nat) :
    Option StaleEntry :=
  let e := entries.getD i default
  let reasons :=
    (if p e then [] else ["worktree missing"]) ++
    (if w e then [] else ["window missing"]) ++
    (if ((entries.take i).map Entry.branch).contains e.branch
      then ["duplicate branch"] else [])
  if reasons.isEmpty then none
  else some { id := e.id, branch := e.branch, reasons := reasons }

theorem staleSpecAtSeen_succ (p w : Entry → Bool) (seen : List String)
    (e : Entry) (rest : List Entry) (i : Nat) :
    staleSpecAtSeen p w seen (e :: rest) (i + 1) =
      staleSpecAtSeen p w (e.branch :: seen) rest i := by
  simp only [staleSpecAtSeen, List.getD_cons_succ, List.take_succ_cons, List.map_cons,
    List.contains_cons]
  have hb : (seen.contains (rest.getD i default).branch ||
        (((rest.getD i default).branch == e.branch) ||
          ((rest.take i).map Entry.branch).contains (rest.getD i default).branch)) =
      ((((rest.getD i default).branch == e.branch) ||
          seen.contains (rest.getD i default).branch) ||
        ((rest.take i).map Entry.branch).contains (rest.getD i default).branch) := by
    cases seen.contains (rest.getD i default).branch <;>
      cases ((rest.getD i default).branch == e.branch) <;>
      cases ((rest.take i).map Entry.branch).contains (rest.getD i default).branch <;> rfl
  rw [hb]

theorem find_stale_entries_go_characterization (p w : Entry → Bool)
    (entries : List Entry) (seen : List String) :
    find_stale_entries_go p w entries seen =
      (List.range entries.length).filterMap (staleSpecAtSeen p w seen entries) := by
  induction entries generalizing seen with
  | nil => simp [find_stale_entries_go]
  | cons e rest ih =>
    rw [find_stale_entries_go, ih (e.branch :: seen), List.length_cons,
      List.range_succ_eq_map, List.filterMap_cons, List.filterMap_map]
    have harg : staleSpecAtSeen p w seen (e :: rest) ∘ Nat.succ =
        staleSpecAtSeen p w (e.branch :: seen) rest := by
      funext i
      exact staleSpecAtSeen_succ p w seen e rest i
    rw [harg]
    have hhead : staleSpecAtSeen p w seen (e :: rest) 0 =
        (if ((if p e then [] else ["worktree missing"]) ++
            (if w e then [] else ["window missing"]) ++
            (if seen.contains e.branch then ["duplicate branch"] else [])).isEmpty
          then none
          else some { id := e.id, branch := e.branch,
                      reasons :=
                        (if p e then [] else ["worktree missing"]) ++
                        (if w e then [] else ["window missing"]) ++
                        (if seen.contains e.branch then ["duplicate branch"] else []) }) := by
      simp [staleSpecAtSeen]
    rw [hhead]
    cases hre : ((if p e then [] else ["worktree missing"]) ++
        (if w e then [] else ["window missing"]) ++
        (if seen.contains e.branch then ["duplicate branch"] else [])).isEmpty <;>
      simp [hre]

theorem staleSpecAtSeen_nil_seen (p w : Entry → Bool) (entries : List Entry) :
    staleSpecAtSeen p w [] entries = staleSpecAt p w entries := by
  funext i
  simp [staleSpecAtSeen, staleSpecAt]

/-- C1: an entry of the input list is flagged by the Stale Detector iff its
directory predicate is false, its window predicate is false, or its branch
occurs among the branches of strictly earlier entries (so a first occurrence
of a branch is never flagged as duplicate, even when flagged for other
reasons); the reasons of a flagged entry are exactly the triggered condition
strings in the fixed order worktree missing / window missing / duplicate
branch, and flagged entries appear in input order.  Stated as a closed-form
characterization of the output by `staleSpecAt`, indexed by position. -/
theorem find_stale_entries_characterization (entries : List Entry)
    (path_exists window_exists : Entry → Bool) :
    find_stale_entries entries path_exists window_exists =
      (List.range entries.length).filterMap
        (staleSpecAt path_exists window_exists entries) := by
  rw [find_stale_entries, find_stale_entries_go_characterization,
    staleSpecAtSeen_nil_seen]

/-- C5: the exit-kill policy is a pure total function; `Any` matches every
integer, `Codes cs` matches exactly the members of `cs` (in particular
`Codes [0,1]` matches 0 and 1 but not 2), and an absent policy never triggers
a kill, so the process is retained with its exit code recorded. -/
theorem exit_kill_policy_matches :
    (∀ x : Int, ExitKill.any.matches x = true) ∧
    (∀ (cs : List Int) (x : Int), ((ExitKill.codes cs).matches x = true ↔ x ∈ cs)) ∧
    ((ExitKill.codes [0, 1]).matches 0 = true ∧
      (ExitKill.codes [0, 1]).matches 1 = true ∧
      (ExitKill.codes [0, 1]).matches 2 = false) ∧
    (∀ x : Int, shouldKill none x = false) := by
  refine ⟨fun x => rfl, fun cs x => ?_, by decide, fun x => rfl⟩
  simp [ExitKill.matches]

/-- JSON rendering of a string literal; models serde_json output for strings
containing no characters that need escaping (the only kind exercised here). -/
def jsonStr (s : String) : String := "\"" ++ s ++ "\""

/-- Models `serde_json::to_string` on `Command` (tag = "type",
rename_all = snake_case), for escape-free fields. -/
def serializeCommand : Command → String
  | Command.claude p none =>
      "\x7b\"type\":\"claude\",\"prompt\":" ++ jsonStr p ++ ",\"agent\":null\x7d"
  | Command.claude p (some a) =>
      "\x7b\"type\":\"claude\",\"prompt\":" ++ jsonStr p ++ ",\"agent\":" ++ jsonStr a ++ "\x7d"
  | Command.raw c =>
      "\x7b\"type\":\"raw\",\"cmd\":" ++ jsonStr c ++ "\x7d"

/-- Models `serde_json::to_string` on `ExitKill` (rename_all = snake_case). -/
def serializeExitKill : ExitKill → String
  | ExitKill.codes cs =>
      "\x7b\"codes\":[" ++ String.intercalate "," (cs.map toString) ++ "]\x7d"
  | ExitKill.any => "\"any\""

/-- Strip an expected leading character sequence; `none` if it is absent. -/
def stripLead : List Char → List Char → Option (List Char)
  | [], s => some s
  | _ :: _, [] => none
  | p :: ps, c :: cs => if p = c then stripLead ps cs else none

/-- Strip an expected trailing character sequence; `none` if it is absent. -/
def stripTrail (suf s : List Char) : Option (List Char) :=
  (stripLead suf.reverse s.reverse).map List.reverse

/-- Read an escape-free JSON string-literal body up to the closing quote,
returning the body and the remaining characters. -/
def readLit : List Char → Option (List Char × List Char)
  | [] => none
  | c :: cs =>
    if c = '"' then some ([], cs)
    else if c = '\\' then none
    else (readLit cs).map (fun r => (c :: r.1, r.2))

/-- Accumulate a run of decimal digits; `none` on a non-digit. -/
def parseNatDigits : List Char → Nat → Option Nat
  | [], acc => some acc
  | c :: cs, acc =>
    if c.isDigit then parseNatDigits cs (acc * 10 + (c.toNat - 48)) else none

/-- Models parsing a decimal rendering back to a natural (stands in for
`Uuid::parse_str` and `DateTime::parse_from_rfc3339` under the decimal
modelling of uuids and timestamps); `none` on anything non-decimal. -/
def parseNat (s : String) : Option Nat :=
  match s.data with
  | [] => none
  | c :: cs => parseNatDigits (c :: cs) 0

/-- Models parsing a JSON integer. -/
def parseIntChars : List Char → Option Int
  | [] => none
  | '-' :: cs =>
    match cs with
    | [] => none
    | l => (parseNatDigits l 0).map (fun n => -(n : Int))
  | l => (parseNatDigits l 0).map (fun n => (n : Int))

/-- Split a character list on a separator character. -/
def splitOnChar (sep : Char) : List Char → List (List Char)
  | [] => [[]]
  | c :: cs =>
    match splitOnChar sep cs with
    | h :: t => if c = sep then [] :: h :: t else (c :: h) :: t
    | [] => [[c]]

/-- Models `serde_json::from_str` on `Command`: accepts exactly the strings
`serializeCommand` produces for escape-free fields; anything else is `none`. -/
def parseCommand (s : String) : Option Command :=
  match stripLead "\x7b\"type\":\"raw\",\"cmd\":\"".data s.data with
  | some rest =>
    match readLit rest with
    | some r => if r.2 = "\x7d".data then some (Command.raw (String.mk r.1)) else none
    | none => none
  | none =>
    match stripLead "\x7b\"type\":\"claude\",\"prompt\":\"".data s.data with
    | some rest =>
      match readLit rest with
      | some r =>
        match stripLead ",\"agent\":".data r.2 with
        | some rest3 =>
          if rest3 = "null\x7d".data then some (Command.claude (String.mk r.1) none)
          else
            match rest3 with
            | '"' :: rest4 =>
              match readLit rest4 with
              | some ra =>
                if ra.2 = "\x7d".data then
                  some (Command.claude (String.mk r.1) (some (String.mk ra.1)))
                else none
              | none => none
            | _ => none
        | none => none
      | none => none
    | none => none

/-- Models `serde_json::from_str` on `ExitKill`: accepts exactly the strings
`serializeExitKill` produces; anything else is `none`. -/
def parseExitKill (s : String) : Option ExitKill :=
  if s.data = "\"any\"".data then some ExitKill.any
  else
    match stripLead "\x7b\"codes\":[".data s.data with
    | some rest =>
      match stripTrail "]\x7d".data rest with
      | some mid =>
        if mid = [] then some (ExitKill.codes [])
        else ((splitOnChar ',' mid).mapM parseIntChars).map ExitKill.codes
      | none => none
    | none => none

/-- A row of the `processes` table (schema in src/db.rs:85-102).  TEXT columns
are strings; uuid and timestamp values are stored in their rendered form.
`pid` and `blocked_on` are never written or read by the embedded operations
and are omitted. -/
structure ProcessRow where
  id : String
  name : String
  project : String
  directory : String
  branch : String
  tmux_session : String
  tmux_window : String
  status : String
  exit_code : Option Int
  command_json : String
  exit_kill_json : Option String
  prompt : Option String
  created_at : String
  updated_at : String
deriving DecidableEq, Inhabited

/-- A row of the `tool_calls` table (schema in src/db.rs:104-112). -/
structure ToolCallRow where
  id : Int
  process_id : String
  tool_name : String
  tool_input : String
  hook_type : String
  timestamp : String
  sequence : Int
deriving DecidableEq, Inhabited

/-- The SQLite store: both tables, rows kept in rowid (insertion) order. -/
structure DB where
  processes : List ProcessRow
  tool_calls : List ToolCallRow
deriving DecidableEq, Inhabited

/-- Embeds `row_to_entry` (src/db.rs:486-520).  Every parse failure falls back
to a default exactly as the source's `unwrap_or_default`, `unwrap_or` and
`.ok()` calls do: nil uuid (0), `Command::Raw` with empty cmd, no exit-kill
policy, epoch timestamp (0). -/
def row_to_entry (r : ProcessRow) : Entry :=
  { id := (parseNat r.id).getD 0
    project := r.project
    branch := r.branch
    path := r.directory
    tmux_session := r.tmux_session
    tmux_window := r.tmux_window
    command := (parseCommand r.command_json).getD (Command.raw "")
    exit_kill := r.exit_kill_json.bind (fun s => parseExitKill s)
    exit_code := r.exit_code
    created_at := (parseNat r.created_at).getD 0 }

/-- The row built by `insert_process` (src/db.rs:358-397): the branch is
stored both as `branch` and as the UNIQUE `name` column, status is always
"spawned", the prompt is extracted from a Claude command. -/
def entryToRow (now : Nat) (e : Entry) : ProcessRow :=
  { id := toString e.id
    name := e.branch
    project := e.project
    directory := e.path
    branch := e.branch
    tmux_session := e.tmux_session
    tmux_window := e.tmux_window
    status := "spawned"
    exit_code := e.exit_code
    command_json := serializeCommand e.command
    exit_kill_json := e.exit_kill.map serializeExitKill
    prompt := match e.command with
      | Command.claude p _ => some p
      | Command.raw _ => none
    created_at := toString e.created_at
    updated_at := toString now }

/-- SQLite INSERT into `processes`: fails iff a stored row collides on the
PRIMARY KEY column `id` or on the UNIQUE column `name` (src/db.rs:86-87). -/
def insertRow (db : DB) (r : ProcessRow) : Except String DB :=
  if db.processes.any (fun q => q.id == r.id) then
    Except.error "UNIQUE constraint failed: processes.id"
  else if db.processes.any (fun q => q.name == r.name) then
    Except.error "UNIQUE constraint failed: processes.name"
  else
    Except.ok { db with processes := db.processes ++ [r] }

/-- Embeds `insert_process` (src/db.rs:358-397). -/
def insert_process (db : DB) (now : Nat) (e : Entry) : Except String DB :=
  insertRow db (entryToRow now e)

/-- Embeds `delete_process` (src/db.rs:399-413): delete the tool calls of the
process, then the process row.  A DELETE matching zero rows is not an error in
SQLite, so the operation always succeeds. -/
def delete_process (db : DB) (id : Nat) : Except String DB :=
  Except.ok
    { processes := db.processes.filter (fun r => !(r.id == toString id))
      tool_calls := db.tool_calls.filter (fun c => !(c.process_id == toString id)) }

/-- Embeds `set_exit_code` (src/db.rs:415-423): UPDATE the matching row's
exit_code, status and updated_at; an UPDATE matching zero rows succeeds. -/
def set_exit_code (db : DB) (now : Nat) (id : Nat) (code : Int) : DB :=
  { db with processes := db.processes.map (fun r =>
      if r.id == toString id then
        { r with exit_code := some code, status := "exited", updated_at := toString now }
      else r) }

/-- Embeds `get_process_by_id` (src/db.rs:446-464): the first row of the
filtered table, mapped through `row_to_entry`. -/
def get_process_by_id (db : DB) (id : Nat) : Option Entry :=
  ((db.processes.filter (fun r => r.id == toString id)).head?).map row_to_entry

/-- Embeds `get_process_by_branch` (src/db.rs:466-484): the query has no ORDER
BY, so rows arrive in table-scan (rowid, i.e. insertion) order and `rows.next`
takes the first. -/
def get_process_by_branch (db : DB) (branch : String) : Option Entry :=
  ((db.processes.filter (fun r => r.branch == branch)).head?).map row_to_entry

/-- Stable insertion into a list sorted by `le` (used to model ORDER BY). -/
def insertSortedBy (le : α → α → Bool) (a : α) : List α → List α
  | [] => [a]
  | b :: t => if le a b then a :: b :: t else b :: insertSortedBy le a t

/-- Stable sort by `le` (used to model ORDER BY). -/
def sortedBy (le : α → α → Bool) : List α → List α
  | [] => []
  | a :: t => insertSortedBy le a (sortedBy le t)

/-- Embeds `get_tool_calls_by_process` (src/db.rs:576-595): the process's tool
calls ordered by sequence ascending. -/
def get_tool_calls_by_process (db : DB) (pid : Nat) : List ToolCallRow :=
  sortedBy (fun c d => decide (c.sequence ≤ d.sequence))
    (db.tool_calls.filter (fun c => c.process_id == toString pid))

/-- SQL aggregate MAX over a list of integers: `none` on an empty relation. -/
def sqlMax : List Int → Option Int
  | [] => none
  | a :: t => some (t.foldl max a)

/-- The sequence values stored for process id `p`, in rowid order. -/
def seqsFor (db : DB) (p : String) : List Int :=
  (db.tool_calls.filter (fun c => c.process_id == p)).map (fun c => c.sequence)

/-- Embeds `COALESCE(MAX(sequence), 0)` scoped to one process id
(src/db.rs:552-558). -/
def maxSeqFor (db : DB) (p : String) : Int :=
  (sqlMax (seqsFor db p)).getD 0

/-- The AUTOINCREMENT id for the next `tool_calls` row (claims never depend on
its value; modelled as one more than the current maximum). -/
def nextToolCallId (db : DB) : Int :=
  db.tool_calls.foldl (fun m c => max m c.id) 0 + 1

/-- Embeds `insert_tool_call` (src/db.rs:542-574): compute the next sequence
for the process as `COALESCE(MAX(sequence), 0) + 1`, then insert the row. -/
def insert_tool_call (db : DB) (now : Nat) (pid : Nat)
    (hook tool input : String) : DB :=
  { db with tool_calls := db.tool_calls ++
      [{ id := nextToolCallId db
         process_id := toString pid
         tool_name := tool
         tool_input := input
         hook_type := hook
         timestamp := toString now
         sequence := maxSeqFor db (toString pid) + 1 }] }

/-- The list `[1, 2, ..., n]` of integer sequence values. -/
def intRange1 : Nat → List Int
  | 0 => []
  | n + 1 => intRange1 n ++ [(n : Int) + 1]

theorem intRange1_eq_range_map (n : Nat) :
    intRange1 n = (List.range n).map (fun (k : Nat) => (k : Int) + 1) := by
  induction n with
  | zero => rfl
  | succ n ih =>
    rw [intRange1, ih, List.range_succ, List.map_append]
    rfl

theorem sqlMax_append_singleton (l : List Int) (a : Int) :
    sqlMax (l ++ [a]) = some (max ((sqlMax l).getD a) a) := by
  cases l with
  | nil => simp [sqlMax]
  | cons x t => simp [sqlMax, List.foldl_append]

theorem sqlMax_intRange1 (n : Nat) :
    sqlMax (intRange1 n) = if n = 0 then none else some (n : Int) := by
  induction n with
  | zero => rfl
  | succ n ih =>
    rw [intRange1, sqlMax_append_singleton, ih]
    cases n with
    | zero => simp
    | succ m =>
      rw [if_neg (Nat.succ_ne_zero m), if_neg (Nat.succ_ne_zero (m + 1)),
        Option.getD_some]
      have h3 : ((m + 1 : Nat) : Int) ≤ ((m + 1 : Nat) : Int) + 1 := by omega
      rw [max_eq_right h3]
      exact congrArg _ (by push_cast; ring)

theorem sqlMax_intRange1_getD (n : Nat) :
    (sqlMax (intRange1 n)).getD 0 = (n : Int) := by
  rw [sqlMax_intRange1]
  cases n <;> simp

/-- One requested tool-call insertion: the target process id and the call
payload (src/commands/log_tool.rs feeds these to `insert_tool_call`). -/
structure ToolCallOp where
  pid : Nat
  now : Nat
  hook : String
  tool : String
  input : String

/-- Run a list of `insert_tool_call` operations against the store in order. -/
def runToolCallInserts (db : DB) : List ToolCallOp → DB
  | [] => db
  | op :: rest =>
      runToolCallInserts (insert_tool_call db op.now op.pid op.hook op.tool op.input) rest

/-- The number of stored tool calls owned by process id `p`. -/
def tcCountFor (db : DB) (p : String) : Nat :=
  (db.tool_calls.filter (fun c => c.process_id == p)).length

theorem seqsFor_insert_tool_call (db : DB) (now pid : Nat)
    (hook tool input : String) (p : String) :
    seqsFor (insert_tool_call db now pid hook tool input) p =
      seqsFor db p ++
        (if (toString pid == p) then [maxSeqFor db (toString pid) + 1] else []) := by
  simp only [seqsFor, insert_tool_call, List.filter_append, List.map_append]
  congr 1
  cases h : (toString pid == p) <;> simp [List.filter_cons, h]

theorem tcCountFor_insert_tool_call (db : DB) (now pid : Nat)
    (hook tool input : String) (p : String) :
    tcCountFor (insert_tool_call db now pid hook tool input) p =
      tcCountFor db p + (if (toString pid == p) then 1 else 0) := by
  simp only [tcCountFor, insert_tool_call, List.filter_append, List.length_append]
  congr 1
  cases h : (toString pid == p) <;> simp [List.filter_cons, h]

theorem runToolCallInserts_seqsFor :
    ∀ (ops : List ToolCallOp) (db : DB),
      (∀ q : String, seqsFor db q = intRange1 (tcCountFor db q)) →
      ∀ p : String,
        seqsFor (runToolCallInserts db ops) p =
          intRange1 (tcCountFor db p + ops.countP (fun op => toString op.pid == p))
  | [], db, h, p => by simpa [runToolCallInserts] using h p
  | op :: rest, db, h, p => by
    rw [runToolCallInserts]
    have hstep : ∀ q : String,
        seqsFor (insert_tool_call db op.now op.pid op.hook op.tool op.input) q =
          intRange1 (tcCountFor (insert_tool_call db op.now op.pid op.hook op.tool op.input) q) := by
      intro q
      rw [seqsFor_insert_tool_call, tcCountFor_insert_tool_call, h q]
      cases hq : (toString op.pid == q) with
      | false => simp
      | true =>
        have hqe : toString op.pid = q := eq_of_beq hq
        simp only [hqe, beq_self_eq_true, if_true]
        rw [maxSeqFor, h q, sqlMax_intRange1_getD]
        rfl
    rw [runToolCallInserts_seqsFor rest _ hstep p,
      tcCountFor_insert_tool_call, List.countP_cons]
    congr 1
    cases hf : (toString op.pid == p)
    · simp
    · simp
      omega

/-- C2: starting from a store holding no tool calls, running any interleaved
list of `insert_tool_call` operations assigns, to each process id, the
sequence values 1..N in insertion order, where N is the number of operations
targeting that id — no gaps, no duplicates, and each process id gets its own
independent sequence starting at 1. -/
theorem insert_tool_call_sequences (procs : List ProcessRow)
    (ops : List ToolCallOp) (pid : Nat) :
    seqsFor (runToolCallInserts { processes := procs, tool_calls := [] } ops)
        (toString pid) =
      (List.range (ops.countP (fun op => toString op.pid == toString pid))).map
        (fun (k : Nat) => (k : Int) + 1) := by
  rw [runToolCallInserts_seqsFor ops { processes := procs, tool_calls := [] }
    (fun q => by simp [seqsFor, tcCountFor, intRange1]) (toString pid)]
  simp [tcCountFor, intRange1_eq_range_map]

/-- Sample entry used by the concrete witnesses below. -/
def sampleEntry : Entry :=
  { id := 1
    project := "tp"
    branch := "feat-a"
    path := "/tmp/tp-feat-a"
    tmux_session := "dev"
    tmux_window := "feat-a"
    command := Command.claude "do work" none
    exit_kill := none
    exit_code := none
    created_at := 5 }

/-- Sample entry sharing `sampleEntry`'s branch under a distinct id. -/
def dupEntry : Entry :=
  { sampleEntry with id := 2, path := "/tmp/other" }

/-- The stored row of `sampleEntry`. -/
def sampleRow : ProcessRow := entryToRow 6 sampleEntry

/-- C4: `delete_process` always succeeds and removes the process together
with every tool call whose process_id equals the deleted id, so querying its
tool calls afterwards returns the empty list; deleting an id not present (in
the SQLite store, and likewise `remove_entry` on the flat-file state) is a
no-op that leaves the store unchanged rather than an error. -/
theorem delete_process_removes_all_and_is_noop_on_absent (db : DB) (id : Nat)
    (st : State) :
    (∃ db', delete_process db id = Except.ok db' ∧
        get_tool_calls_by_process db' id = [] ∧
        get_process_by_id db' id = none) ∧
    ((∀ r ∈ db.processes, r.id ≠ toString id) →
      (∀ c ∈ db.tool_calls, c.process_id ≠ toString id) →
      delete_process db id = Except.ok db) ∧
    ((∀ e ∈ st.entries, e.id ≠ id) → remove_entry st id = st) := by
  refine ⟨⟨_, rfl, ?_, ?_⟩, ?_, ?_⟩
  · simp [get_tool_calls_by_process, delete_process, List.filter_filter, sortedBy]
  · simp [get_process_by_id, delete_process, List.filter_filter]
  · intro h1 h2
    have e1 : db.processes.filter (fun r => !(r.id == toString id)) = db.processes :=
      List.filter_eq_self.mpr (fun r hr => by simpa using h1 r hr)
    have e2 : db.tool_calls.filter (fun c => !(c.process_id == toString id)) =
        db.tool_calls :=
      List.filter_eq_self.mpr (fun c hc => by simpa using h2 c hc)
    rw [delete_process, e1, e2]
  · intro h1
    have e1 : st.entries.filter (fun e => !(e.id == id)) = st.entries :=
      List.filter_eq_self.mpr (fun e he => by simpa using h1 e he)
    rw [remove_entry, e1]

theorem delete_process_removes_all_and_is_noop_on_absent_witness :
    delete_process { processes := [sampleRow], tool_calls := [] } 7 =
        Except.ok { processes := [sampleRow], tool_calls := [] } ∧
      remove_entry { version := 1, entries := [sampleEntry] } 7 =
        { version := 1, entries := [sampleEntry] } :=
  ⟨(delete_process_removes_all_and_is_noop_on_absent
      { processes := [sampleRow], tool_calls := [] } 7
      { version := 1, entries := [sampleEntry] }).2.1
      (by decide) (by decide),
    (delete_process_removes_all_and_is_noop_on_absent
      { processes := [sampleRow], tool_calls := [] } 7
      { version := 1, entries := [sampleEntry] }).2.2
      (by decide)⟩

theorem insertRow_ok_iff (db : DB) (r : ProcessRow) :
    (∃ db', insertRow db r = Except.ok db') ↔
      ((∀ q ∈ db.processes, q.id ≠ r.id) ∧ (∀ q ∈ db.processes, q.name ≠ r.name)) := by
  unfold insertRow
  cases h1 : db.processes.any (fun q => q.id == r.id) <;>
    cases h2 : db.processes.any (fun q => q.name == r.name) <;>
    simp_all

/-- C6 counterexample: inserting two entries with the same branch and
distinct ids into the SQLite store does not leave both inserts succeeding:
the second one is rejected with a UNIQUE-constraint failure on the `name`
column, because `insert_process` stores the branch as the row's name and the
schema declares `name` UNIQUE. -/
theorem insert_process_duplicate_branch_cex :
    (insert_process { processes := [], tool_calls := [] } 6 sampleEntry).bind
        (fun db => insert_process db 7 dupEntry) =
      Except.error "UNIQUE constraint failed: processes.name" := by
  rfl

/-- C6 amended: the flat-file store's `add_entry` appends unconditionally, so
duplicate branches are accepted there; the SQLite store's `insert_process`
succeeds iff no stored row collides on the id or on the name column — and
since the name is set to the branch, a second insert with a duplicate branch
is rejected at insert time, not merely surfaced later by the Stale
Detector. -/
theorem insert_process_succeeds_iff_id_and_branch_fresh (db : DB) (now : Nat)
    (e : Entry) (st : State) (e' : Entry) :
    ((∃ db', insert_process db now e = Except.ok db') ↔
      ((∀ q ∈ db.processes, q.id ≠ toString e.id) ∧
        (∀ q ∈ db.processes, q.name ≠ e.branch))) ∧
    add_entry st e' = { st with entries := st.entries ++ [e'] } := by
  exact ⟨insertRow_ok_iff db (entryToRow now e), rfl⟩

theorem insert_process_succeeds_iff_id_and_branch_fresh_witness :
    (∃ db', insert_process { processes := [], tool_calls := [] } 6 sampleEntry =
      Except.ok db') :=
  ((insert_process_succeeds_iff_id_and_branch_fresh
      { processes := [], tool_calls := [] } 6 sampleEntry
      { version := 1, entries := [] } sampleEntry).1).mpr
    (by decide)

/-- C8 counterexample: a stored exit code is not immutable.  After setting the
exit code of the sample process to 0 the store holds `some 0`, and a second
`set_exit_code` with 3 changes the stored value to `some 3`; the flat-file
`update_exit_code` behaves the same way. -/
theorem set_exit_code_not_immutable_cex :
    ((set_exit_code { processes := [sampleRow], tool_calls := [] } 7 1 0).processes.map
        (fun r => r.exit_code) = [some 0] ∧
      ((set_exit_code (set_exit_code { processes := [sampleRow], tool_calls := [] } 7 1 0)
          8 1 3).processes.map (fun r => r.exit_code) = [some 3])) ∧
    ((update_exit_code { version := 1, entries := [sampleEntry] } 1 0).entries.map
        (fun e => e.exit_code) = [some 0] ∧
      ((update_exit_code (update_exit_code { version := 1, entries := [sampleEntry] } 1 0)
          1 3).entries.map (fun e => e.exit_code) = [some 3])) := by
  decide

/-- C8 amended: `set_exit_code` and `update_exit_code` unconditionally
overwrite: after a call, the matching stored row's exit_code equals the code
just passed (and the SQLite row's status is "exited"), whatever value was
stored before.  Single-write immutability is a caller convention, not
enforced by the store. -/
theorem set_exit_code_overwrites (db : DB) (now id : Nat) (code : Int)
    (st : State) :
    (∀ r ∈ (set_exit_code db now id code).processes,
      r.id = toString id → r.exit_code = some code ∧ r.status = "exited") ∧
    (∀ e ∈ (update_exit_code st id code).entries,
      e.id = id → e.exit_code = some code) := by
  constructor
  · intro r hr hid
    rcases List.mem_map.mp hr with ⟨q, hq, rfl⟩
    by_cases h : q.id = toString id
    · simp [h]
    · have hb : (q.id == toString id) = false := by simpa using h
      rw [hb] at hid ⊢
      simp at hid
      exact absurd hid h
  · intro e he hid
    rcases List.mem_map.mp he with ⟨q, hq, rfl⟩
    by_cases h : q.id = id
    · simp [h]
    · have hb : (q.id == id) = false := by simpa using h
      rw [hb] at hid ⊢
      simp at hid
      exact absurd hid h

/-- The sample row after `set_exit_code` with code 0 at time 7. -/
def sampleRowExited : ProcessRow :=
  { sampleRow with exit_code := some 0, status := "exited", updated_at := toString 7 }

theorem set_exit_code_overwrites_witness :
    sampleRowExited.exit_code = some 0 ∧ sampleRowExited.status = "exited" :=
  (set_exit_code_overwrites { processes := [sampleRow], tool_calls := [] } 7 1 0
      { version := 1, entries := [sampleEntry] }).1
    sampleRowExited (by decide) (by decide)

theorem head_filter_eq_find (p : α → Bool) (l : List α) :
    (l.filter p).head? = l.find? p := by
  induction l with
  | nil => rfl
  | cons a t ih => cases h : p a <;> simp [List.filter_cons, List.find?_cons, h, ih]

theorem find_first_index (p : α → Bool) :
    ∀ (l : List α) (i : Nat) (h : i < l.length),
      p (l.get ⟨i, h⟩) = true →
      (∀ j (hj : j < i), p (l.get ⟨j, Nat.lt_trans hj h⟩) = false) →
      l.find? p = some (l.get ⟨i, h⟩)
  | a :: t, 0, _, hp, _ => by
    simp only [List.get] at hp ⊢
    simp [List.find?_cons, hp]
  | a :: t, i + 1, h, hp, hearlier => by
    have ha : p a = false := hearlier 0 (Nat.succ_pos i)
    simp only [List.get] at hp ha ⊢
    rw [List.find?_cons, ha]
    exact find_first_index p t i (Nat.lt_of_succ_lt_succ h) hp
      (fun j hj => hearlier (j + 1) (Nat.succ_lt_succ hj))

/-- C10: lookup by branch succeeds iff some stored process has that branch
(for both the SQLite `get_process_by_branch` and the flat-file
`find_by_branch`), and when several processes share the branch it returns the
one stored first (earliest inserted); duplicates never make the lookup
fail. -/
theorem lookup_by_branch_returns_first (db : DB) (st : State) (b : String) :
    ((get_process_by_branch db b).isSome ↔ ∃ r ∈ db.processes, r.branch = b) ∧
    (∀ i : Nat, ∀ h : i < db.processes.length,
      (db.processes.get ⟨i, h⟩).branch = b →
      (∀ j : Nat, ∀ hj : j < i, (db.processes.get ⟨j, Nat.lt_trans hj h⟩).branch ≠ b) →
      get_process_by_branch db b = some (row_to_entry (db.processes.get ⟨i, h⟩))) ∧
    ((find_by_branch st b).isSome ↔ ∃ e ∈ st.entries, e.branch = b) := by
  refine ⟨?_, ?_, ?_⟩
  · rw [get_process_by_branch, head_filter_eq_find]
    simp [List.find?_isSome]
  · intro i h hb hearlier
    rw [get_process_by_branch, head_filter_eq_find,
      find_first_index (fun r => r.branch == b) db.processes i h (by simpa using hb)
        (fun j hj => by simpa using hearlier j hj)]
    rfl
  · rw [find_by_branch]
    simp [List.find?_isSome]

theorem lookup_by_branch_returns_first_witness :
    get_process_by_branch
        { processes := [sampleRow, entryToRow 7 dupEntry], tool_calls := [] } "feat-a" =
      some (row_to_entry sampleRow) :=
  (lookup_by_branch_returns_first
      { processes := [sampleRow, entryToRow 7 dupEntry], tool_calls := [] }
      { version := 1, entries := [] } "feat-a").2.1
    0 (by decide) (by decide) (fun j hj => absurd hj (Nat.not_lt_zero j))

/-- A stored row whose serialized payloads are all malformed: the id is not a
uuid, the command and exit-kill payloads are not valid JSON, the timestamp is
not rfc3339. -/
def malformedRow : ProcessRow :=
  { id := "not-a-uuid"
    name := "feat-bad"
    project := "tp"
    directory := "/tmp/bad"
    branch := "feat-bad"
    tmux_session := "dev"
    tmux_window := "feat-bad"
    status := "spawned"
    exit_code := some 4
    command_json := "notjson"
    exit_kill_json := some "junk"
    prompt := none
    created_at := "yesterday"
    updated_at := "now" }

/-- C7 counterexample: reading a row whose stored command, exit-kill, id and
timestamp payloads are all malformed does not surface any serialization
failure — the read succeeds and silently substitutes defaults: nil uuid,
`Raw` command with empty cmd, no exit-kill policy, epoch timestamp. -/
theorem read_swallows_malformed_payload_cex :
    get_process_by_branch { processes := [malformedRow], tool_calls := [] } "feat-bad" =
      some
        { id := 0
          project := "tp"
          branch := "feat-bad"
          path := "/tmp/bad"
          tmux_session := "dev"
          tmux_window := "feat-bad"
          command := Command.raw ""
          exit_kill := none
          exit_code := some 4
          created_at := 0 } := by
  decide

/-- C7 amended: the SQLite read path never surfaces a serialization failure.
When the row found by a branch lookup has a command payload that does not
parse, an exit-kill payload that does not parse, a non-uuid id and a
non-rfc3339 timestamp, the read succeeds and returns the entry with the
defaults substituted by `row_to_entry`: nil uuid, `Raw` command with empty
cmd, no policy, epoch timestamp.  (The flat-file `load` does propagate parse
errors; the db read path does not.) -/
theorem row_to_entry_substitutes_defaults (db : DB) (b : String) (r : ProcessRow)
    (hr : (db.processes.filter (fun q => q.branch == b)).head? = some r)
    (hc : parseCommand r.command_json = none)
    (hk : ∀ s, r.exit_kill_json = some s → parseExitKill s = none)
    (hid : parseNat r.id = none)
    (hts : parseNat r.created_at = none) :
    get_process_by_branch db b = some
      { id := 0
        project := r.project
        branch := r.branch
        path := r.directory
        tmux_session := r.tmux_session
        tmux_window := r.tmux_window
        command := Command.raw ""
        exit_kill := none
        exit_code := r.exit_code
        created_at := 0 } := by
  rw [get_process_by_branch, hr]
  have hke : r.exit_kill_json.bind (fun s => parseExitKill s) = none := by
    cases he : r.exit_kill_json with
    | none => rfl
    | some s => simp [hk s he]
  simp [row_to_entry, hc, hid, hts, hke]

/-- A second all-malformed row, with different field values. -/
def malformedRow2 : ProcessRow :=
  { malformedRow with
      id := "zzz"
      name := "feat-worse"
      branch := "feat-worse"
      tmux_window := "feat-worse"
      command_json := "\x7b broken"
      exit_kill_json := some "[oops"
      created_at := "not a date" }

theorem row_to_entry_substitutes_defaults_witness :
    get_process_by_branch { processes := [malformedRow2], tool_calls := [] } "feat-worse" =
      some
        { id := 0
          project := "tp"
          branch := "feat-worse"
          path := "/tmp/bad"
          tmux_session := "dev"
          tmux_window := "feat-worse"
          command := Command.raw ""
          exit_kill := none
          exit_code := some 4
          created_at := 0 } := by
  have h := row_to_entry_substitutes_defaults
    { processes := [malformedRow2], tool_calls := [] } "feat-worse" malformedRow2
    (by decide) (by decide)
    (fun s hs => by rw [← Option.some.inj hs]; decide)
    (by decide) (by decide)
  exact h

/-- Legacy entry from the old state.json (src/db.rs:139-151, `mod legacy`).
The raw serde value of `exit_kill` is carried verbatim as an optional JSON
string. -/
structure LegacyEntry where
  id : Nat
  project : String
  branch : String
  path : String
  tmux_session : String
  tmux_window : String
  command : Command
  exit_kill : Option String
  exit_code : Option Int
  created_at : Nat
deriving DecidableEq, Inhabited

/-- Legacy state.json contents (src/db.rs:132-137). -/
structure LegacyState where
  version : Nat
  entries : List LegacyEntry
deriving DecidableEq, Inhabited

/-- A row of the legacy tools.db `tool_calls` table (keyed by `session_id`,
no sequence column), listed in id-ascending (chronological) order as produced
by the `ORDER BY id ASC` read in src/db.rs:291-297. -/
structure LegacyToolRow where
  session_id : String
  hook_type : String
  tool_name : String
  input : String
  timestamp : String
deriving DecidableEq, Inhabited

/-- The processes row written for a legacy entry by `migrate_state_json`
(src/db.rs:220-263): branch stored as the name, status derived from the exit
code, prompt extracted from a Claude command, created_at preserved. -/
def legacyEntryToRow (now : Nat) (e : LegacyEntry) : ProcessRow :=
  { id := toString e.id
    name := e.branch
    project := e.project
    directory := e.path
    branch := e.branch
    tmux_session := e.tmux_session
    tmux_window := e.tmux_window
    status := if e.exit_code.isSome then "exited" else "spawned"
    exit_code := e.exit_code
    command_json := serializeCommand e.command
    exit_kill_json := e.exit_kill
    prompt := match e.command with
      | Command.claude p _ => some p
      | Command.raw _ => none
    created_at := toString e.created_at
    updated_at := toString now }

/-- SQLite INSERT OR IGNORE into `processes`: silently keep the store
unchanged on an id or name collision. -/
def insertOrIgnoreRow (db : DB) (r : ProcessRow) : DB :=
  if db.processes.any (fun q => q.id == r.id) ||
      db.processes.any (fun q => q.name == r.name) then db
  else { db with processes := db.processes ++ [r] }

/-- Embeds `migrate_state_json` (src/db.rs:215-268) applied to an
already-parsed legacy state. -/
def migrate_state_json (db : DB) (now : Nat) (st : LegacyState) : DB :=
  st.entries.foldl (fun d e => insertOrIgnoreRow d (legacyEntryToRow now e)) db

/-- Loop of `migrate_tools_db` (src/db.rs:314-343): for each legacy record in
id order, silently drop it when its session_id matches no process in the
store, otherwise bump the in-memory per-process sequence map and insert. -/
def migrate_tools_db_go (db : DB) (m : String → Int) : List LegacyToolRow → DB
  | [] => db
  | r :: rest =>
    if db.processes.any (fun q => q.id == r.session_id) then
      migrate_tools_db_go
        { db with tool_calls := db.tool_calls ++
            [{ id := nextToolCallId db
               process_id := r.session_id
               tool_name := r.tool_name
               tool_input := r.input
               hook_type := r.hook_type
               timestamp := r.timestamp
               sequence := m r.session_id + 1 }] }
        (fun p => if p = r.session_id then m r.session_id + 1 else m p) rest
    else migrate_tools_db_go db m rest

/-- Embeds `migrate_tools_db` (src/db.rs:270-350); `none` models a legacy
file without a `tool_calls` table, in which case nothing is migrated. -/
def migrate_tools_db (db : DB) (tools : Option (List LegacyToolRow)) : DB :=
  match tools with
  | none => db
  | some rows => migrate_tools_db_go db (fun _ => 0) rows

/-- On-disk situation seen by `migrate_if_needed`: presence of the two legacy
artifacts and the obsolete lock file, the parse outcome of state.json (used
only when that file is present), the legacy tool rows in id order (`none`
when the `tool_calls` table is absent), and the current store. -/
structure Sys where
  hasStateFile : Bool
  stateParse : Except String LegacyState
  hasToolsFile : Bool
  toolRows : Option (List LegacyToolRow)
  hasLockFile : Bool
  db : DB

/-- Embeds `migrate_if_needed` (src/db.rs:166-213): return immediately when
neither legacy artifact exists; skip when the store already holds at least
one process (the idempotency guard); otherwise migrate state.json
(propagating a parse failure), then tools.db, then rename both artifacts to
backups (they stop existing under their live names) and remove the obsolete
lock file. -/
def migrate_if_needed (now : Nat) (s : Sys) : Except String Sys :=
  if !s.hasStateFile && !s.hasToolsFile then Except.ok s
  else if s.db.processes.length > 0 then Except.ok s
  else
    match (if s.hasStateFile then
        s.stateParse.map (fun st => migrate_state_json s.db now st)
      else Except.ok s.db) with
    | Except.error e => Except.error e
    | Except.ok db1 =>
      Except.ok { s with
        db := if s.hasToolsFile then migrate_tools_db db1 s.toolRows else db1
        hasStateFile := false
        hasToolsFile := false
        hasLockFile := false }

/-- C3: the Migration Engine is idempotent.  If a run succeeds (under any
clock) then running it again on the resulting situation is a no-op returning
the situation unchanged — in particular the Process and ToolCall tables after
the second run equal those after the first; and whenever the store already
holds at least one Process, a run changes nothing at all. -/
theorem migrate_if_needed_idempotent (now now2 : Nat) (s s' : Sys)
    (h : migrate_if_needed now s = Except.ok s') :
    migrate_if_needed now2 s' = Except.ok s' ∧
      (0 < s.db.processes.length → s' = s) := by
  unfold migrate_if_needed at h
  by_cases h1 : (!s.hasStateFile && !s.hasToolsFile) = true
  · rw [if_pos h1] at h
    injection h with hs
    subst hs
    refine ⟨?_, fun _ => rfl⟩
    unfold migrate_if_needed
    rw [if_pos h1]
  · rw [if_neg h1] at h
    by_cases h2 : s.db.processes.length > 0
    · rw [if_pos h2] at h
      injection h with hs
      subst hs
      refine ⟨?_, fun _ => rfl⟩
      unfold migrate_if_needed
      rw [if_neg h1, if_pos h2]
    · rw [if_neg h2] at h
      cases hm : (if s.hasStateFile then
          s.stateParse.map (fun st => migrate_state_json s.db now st)
        else Except.ok s.db) with
      | error e =>
        rw [hm] at h
        exact Except.noConfusion h
      | ok db1 =>
        rw [hm] at h
        dsimp only at h
        injection h with hs
        subst hs
        refine ⟨?_, fun hc => absurd hc h2⟩
        unfold migrate_if_needed
        simp

/-- A legacy entry with no exit code, used by concrete migration witnesses. -/
def legacySpawned : LegacyEntry :=
  { id := 3
    project := "tp"
    branch := "feat-old"
    path := "/tmp/tp-feat-old"
    tmux_session := "dev"
    tmux_window := "feat-old"
    command := Command.raw "echo hi"
    exit_kill := none
    exit_code := none
    created_at := 2 }

/-- The on-disk situation before a first migration run: state.json present
and parsed, no tools.db, stale lock present, empty store. -/
def sysBefore : Sys :=
  { hasStateFile := true
    stateParse := Except.ok { version := 1, entries := [legacySpawned] }
    hasToolsFile := false
    toolRows := none
    hasLockFile := true
    db := { processes := [], tool_calls := [] } }

/-- The situation after the first successful migration run at time 10. -/
def sysAfter : Sys :=
  { hasStateFile := false
    stateParse := Except.ok { version := 1, entries := [legacySpawned] }
    hasToolsFile := false
    toolRows := none
    hasLockFile := false
    db := { processes := [legacyEntryToRow 10 legacySpawned], tool_calls := [] } }

theorem migrate_if_needed_idempotent_witness :
    migrate_if_needed 11 sysAfter = Except.ok sysAfter :=
  (migrate_if_needed_idempotent 10 11 sysBefore sysAfter rfl).1

theorem legacyEntryToRow_status (now : Nat) (e : LegacyEntry) :
    (legacyEntryToRow now e).status =
      (if e.exit_code = none then "spawned" else "exited") := by
  cases h : e.exit_code <;> simp [legacyEntryToRow, h]

theorem mem_migrate_state_json :
    ∀ (entries : List LegacyEntry) (db : DB) (now : Nat) (r : ProcessRow),
      r ∈ (entries.foldl (fun d e => insertOrIgnoreRow d (legacyEntryToRow now e))
          db).processes →
      r ∈ db.processes ∨ ∃ e ∈ entries, r = legacyEntryToRow now e
  | [], _, _, _, h => Or.inl h
  | e :: rest, db, now, r, h => by
    rw [List.foldl_cons] at h
    rcases mem_migrate_state_json rest (insertOrIgnoreRow db (legacyEntryToRow now e))
        now r h with h1 | ⟨e2, he2, hr⟩
    · unfold insertOrIgnoreRow at h1
      by_cases hcc : (db.processes.any (fun q => q.id == (legacyEntryToRow now e).id) ||
          db.processes.any (fun q => q.name == (legacyEntryToRow now e).name)) = true
      · rw [if_pos hcc] at h1
        exact Or.inl h1
      · rw [if_neg hcc] at h1
        rcases List.mem_append.mp h1 with h2 | h2
        · exact Or.inl h2
        · exact Or.inr ⟨e, List.mem_cons_self e rest, by simpa using h2⟩
    · exact Or.inr ⟨e2, List.mem_cons_of_mem e he2, hr⟩

/-- The tool names stored for process id `p`, in rowid order. -/
def tcNames (db : DB) (p : String) : List String :=
  (db.tool_calls.filter (fun c => c.process_id == p)).map (fun c => c.tool_name)

theorem seqsFor_append_one (db : DB) (c : ToolCallRow) (q : String) :
    seqsFor { db with tool_calls := db.tool_calls ++ [c] } q =
      seqsFor db q ++ (if c.process_id == q then [c.sequence] else []) := by
  simp only [seqsFor, List.filter_append, List.map_append]
  congr 1
  cases h : (c.process_id == q) <;> simp [List.filter_cons, h]

theorem tcNames_append_one (db : DB) (c : ToolCallRow) (q : String) :
    tcNames { db with tool_calls := db.tool_calls ++ [c] } q =
      tcNames db q ++ (if c.process_id == q then [c.tool_name] else []) := by
  simp only [tcNames, List.filter_append, List.map_append]
  congr 1
  cases h : (c.process_id == q) <;> simp [List.filter_cons, h]

theorem seqsFor_append_mk (db : DB) (i : Int) (pid tn ti ht ts : String)
    (sq : Int) (q : String) :
    seqsFor { db with tool_calls := db.tool_calls ++
        [{ id := i, process_id := pid, tool_name := tn, tool_input := ti,
           hook_type := ht, timestamp := ts, sequence := sq }] } q =
      seqsFor db q ++ (if pid == q then [sq] else []) := by
  rw [seqsFor_append_one]

theorem tcNames_append_mk (db : DB) (i : Int) (pid tn ti ht ts : String)
    (sq : Int) (q : String) :
    tcNames { db with tool_calls := db.tool_calls ++
        [{ id := i, process_id := pid, tool_name := tn, tool_input := ti,
           hook_type := ht, timestamp := ts, sequence := sq }] } q =
      tcNames db q ++ (if pid == q then [tn] else []) := by
  rw [tcNames_append_one]

theorem migrate_tools_db_go_filter :
    ∀ (rows : List LegacyToolRow) (db : DB) (m : String → Int)
      (procs : List ProcessRow),
      db.processes = procs →
      (∀ q : String, ∃ n : Nat, m q = (n : Int) ∧ seqsFor db q = intRange1 n) →
      ∀ (p : String) (np : Nat), m p = (np : Int) →
        seqsFor (migrate_tools_db_go db m rows) p =
          intRange1 (np + (rows.filter (fun r => r.session_id == p &&
            procs.any (fun q2 => q2.id == r.session_id))).length) ∧
        tcNames (migrate_tools_db_go db m rows) p =
          tcNames db p ++ (rows.filter (fun r => r.session_id == p &&
            procs.any (fun q2 => q2.id == r.session_id))).map (fun r => r.tool_name)
  | [], db, m, procs, hdb, hinv, p, np, hnp => by
    rw [migrate_tools_db_go]
    refine ⟨?_, by simp⟩
    rcases hinv p with ⟨n, hn, hs⟩
    have hne : np = n := by omega
    subst hne
    simpa using hs
  | r :: rest, db, m, procs, hdb, hinv, p, np, hnp => by
    rw [migrate_tools_db_go]
    by_cases hc : (db.processes.any (fun q => q.id == r.session_id)) = true
    · rw [if_pos hc]
      have hcp : procs.any (fun q2 => q2.id == r.session_id) = true := by
        rw [← hdb]; exact hc
      rcases hinv r.session_id with ⟨ns, hns, hss⟩
      have hinv' : ∀ q : String, ∃ n : Nat,
          (if q = r.session_id then m r.session_id + 1 else m q) = (n : Int) ∧
          seqsFor { db with tool_calls := db.tool_calls ++
              [{ id := nextToolCallId db, process_id := r.session_id,
                 tool_name := r.tool_name, tool_input := r.input,
                 hook_type := r.hook_type, timestamp := r.timestamp,
                 sequence := m r.session_id + 1 }] } q = intRange1 n := by
        intro q
        rw [seqsFor_append_mk]
        by_cases hq : q = r.session_id
        · subst hq
          refine ⟨ns + 1, ?_, ?_⟩
          · rw [if_pos rfl, hns]; push_cast; ring
          · have hb : (r.session_id == r.session_id) = true :=
              beq_self_eq_true r.session_id
            rw [hb, if_pos rfl, hss, hns]
            rfl
        · rcases hinv q with ⟨n, hn, hs⟩
          refine ⟨n, ?_, ?_⟩
          · rw [if_neg hq]; exact hn
          · have hb : (r.session_id == q) = false := by
              simpa using fun h => hq h.symm
            rw [hb, if_neg (by simp), hs]
            simp
      have hIH := migrate_tools_db_go_filter rest
        { db with tool_calls := db.tool_calls ++
            [{ id := nextToolCallId db, process_id := r.session_id,
               tool_name := r.tool_name, tool_input := r.input,
               hook_type := r.hook_type, timestamp := r.timestamp,
               sequence := m r.session_id + 1 }] }
        (fun p2 => if p2 = r.session_id then m r.session_id + 1 else m p2)
        procs hdb hinv' p
      by_cases hrp : (r.session_id == p) = true
      · have hrpe : r.session_id = p := eq_of_beq hrp
        have hmp' : (if p = r.session_id then m r.session_id + 1 else m p) =
            ((np + 1 : Nat) : Int) := by
          rw [if_pos hrpe.symm, hrpe, hnp]; push_cast; ring
        have h2 := hIH (np + 1) hmp'
        have hcr : (r.session_id == p &&
            procs.any (fun q2 => q2.id == r.session_id)) = true := by
          rw [hrp, hcp]; rfl
        constructor
        · rw [h2.1]
          congr 1
          simp only [List.filter_cons, hcr, if_true, List.length_cons]
          omega
        · rw [h2.2, tcNames_append_mk, hrp, if_pos rfl]
          simp [List.filter_cons, hcr]
      · have hner : r.session_id ≠ p := fun h => hrp (by rw [h]; exact beq_self_eq_true p)
        have hrpe : (r.session_id == p) = false := by simpa using hner
        have hmp' : (if p = r.session_id then m r.session_id + 1 else m p) = (np : Int) := by
          rw [if_neg (fun h => hner h.symm)]
          exact hnp
        have h2 := hIH np hmp'
        have hcr : (r.session_id == p &&
            procs.any (fun q2 => q2.id == r.session_id)) = false := by
          rw [hrpe]; rfl
        constructor
        · rw [h2.1]
          congr 1
          simp [List.filter_cons, hcr]
        · rw [h2.2, tcNames_append_mk, hrpe, if_neg (by simp)]
          simp [List.filter_cons, hcr]
    · rw [if_neg hc]
      have hcr : (r.session_id == p &&
          procs.any (fun q2 => q2.id == r.session_id)) = false := by
        have hf : procs.any (fun q2 => q2.id == r.session_id) = false := by
          rw [← hdb]
          simpa using hc
        rw [hf]
        simp
      have hIH := migrate_tools_db_go_filter rest db m procs hdb hinv p np hnp
      constructor
      · rw [hIH.1]
        congr 1
        simp [List.filter_cons, hcr]
      · rw [hIH.2]
        simp [List.filter_cons, hcr]

/-- C9: during migration, (i) every row the legacy state.json migration adds
to the store is the row of some legacy entry, with status derived "spawned"
when the legacy exit code is absent and "exited" when present; (ii) a legacy
tool-call record whose session id matches no process in the migrated store is
silently dropped — afterwards no tool call with that id exists; (iii) the
surviving records of each process id appear in the legacy log's chronological
order with a fresh per-process sequence 1..k assigned from 1. -/
theorem migration_status_orphans_sequences :
    (∀ (db : DB) (now : Nat) (st : LegacyState) (r : ProcessRow),
        r ∈ (migrate_state_json db now st).processes →
        r ∈ db.processes ∨ ∃ e ∈ st.entries, r = legacyEntryToRow now e ∧
          r.status = (if e.exit_code = none then "spawned" else "exited")) ∧
    (∀ (procs : List ProcessRow) (rows : List LegacyToolRow) (p : String),
        procs.any (fun q => q.id == p) = false →
        (migrate_tools_db { processes := procs, tool_calls := [] }
            (some rows)).tool_calls.filter (fun c => c.process_id == p) = []) ∧
    (∀ (procs : List ProcessRow) (rows : List LegacyToolRow) (p : String),
        seqsFor (migrate_tools_db { processes := procs, tool_calls := [] }
            (some rows)) p =
          intRange1 ((rows.filter (fun r => r.session_id == p &&
            procs.any (fun q2 => q2.id == r.session_id))).length) ∧
        tcNames (migrate_tools_db { processes := procs, tool_calls := [] }
            (some rows)) p =
          (rows.filter (fun r => r.session_id == p &&
            procs.any (fun q2 => q2.id == r.session_id))).map (fun r => r.tool_name)) := by
  have hmain : ∀ (procs : List ProcessRow) (rows : List LegacyToolRow) (p : String),
      seqsFor (migrate_tools_db { processes := procs, tool_calls := [] }
          (some rows)) p =
        intRange1 ((rows.filter (fun r => r.session_id == p &&
          procs.any (fun q2 => q2.id == r.session_id))).length) ∧
      tcNames (migrate_tools_db { processes := procs, tool_calls := [] }
          (some rows)) p =
        (rows.filter (fun r => r.session_id == p &&
          procs.any (fun q2 => q2.id == r.session_id))).map (fun r => r.tool_name) := by
    intro procs rows p
    have h := migrate_tools_db_go_filter rows { processes := procs, tool_calls := [] }
      (fun _ => 0) procs rfl (fun q => ⟨0, rfl, rfl⟩) p 0 rfl
    simpa [tcNames, migrate_tools_db] using h
  refine ⟨?_, ?_, hmain⟩
  · intro db now st r h
    rcases mem_migrate_state_json st.entries db now r h with h1 | ⟨e, he, hr⟩
    · exact Or.inl h1
    · exact Or.inr ⟨e, he, hr, by rw [hr, legacyEntryToRow_status now e]⟩
  · intro procs rows p hp
    have h := (hmain procs rows p).2
    have hfil : rows.filter (fun r => r.session_id == p &&
        procs.any (fun q2 => q2.id == r.session_id)) = [] := by
      apply List.filter_eq_nil_iff.mpr
      intro a ha
      by_cases hsp : (a.session_id == p) = true
      · have hspe : a.session_id = p := eq_of_beq hsp
        simp [hspe, hp]
      · have hf : (a.session_id == p) = false := by simpa using hsp
        simp [hf]
    rw [hfil] at h
    simp only [List.map_nil] at h
    have h2 : ((migrate_tools_db { processes := procs, tool_calls := [] }
        (some rows)).tool_calls.filter (fun c => c.process_id == p)).map
          (fun c => c.tool_name) = [] := h
    exact List.map_eq_nil_iff.mp h2

/-- A legacy entry with an exit code recorded. -/
def legacyExited : LegacyEntry :=
  { legacySpawned with id := 4, branch := "feat-done", exit_code := some 0 }

/-- A legacy tool record whose session id matches no migrated process. -/
def ltOrphan : LegacyToolRow :=
  { session_id := "99"
    hook_type := "pre"
    tool_name := "Read"
    input := "x"
    timestamp := "t1" }

/-- A legacy tool record whose session id matches `legacySpawned`. -/
def ltValid : LegacyToolRow :=
  { session_id := "3"
    hook_type := "post"
    tool_name := "Write"
    input := "y"
    timestamp := "t2" }

/-- The store holding only the migrated `legacySpawned` process. -/
def migratedProcs : DB :=
  { processes := [legacyEntryToRow 10 legacySpawned], tool_calls := [] }

theorem migration_status_orphans_sequences_witness :
    (legacyEntryToRow 10 legacySpawned).status = "spawned" ∧
    (legacyEntryToRow 10 legacyExited).status = "exited" ∧
    (migrate_tools_db migratedProcs (some [ltOrphan, ltValid])).tool_calls.filter
      (fun c => c.process_id == "99") = [] ∧
    seqsFor (migrate_tools_db migratedProcs (some [ltOrphan, ltValid])) "3" =
      intRange1 1 ∧
    tcNames (migrate_tools_db migratedProcs (some [ltOrphan, ltValid])) "3" =
      ["Write"] := by
  refine ⟨?_, ?_, ?_, ?_, ?_⟩
  · rcases migration_status_orphans_sequences.1 { processes := [], tool_calls := [] }
        10 { version := 1, entries := [legacySpawned] }
        (legacyEntryToRow 10 legacySpawned) (by decide) with h | ⟨e, he, _, hst⟩
    · exact absurd h (by decide)
    · have he2 : e = legacySpawned := by simpa using he
      subst he2
      simpa using hst
  · rcases migration_status_orphans_sequences.1 { processes := [], tool_calls := [] }
        10 { version := 1, entries := [legacyExited] }
        (legacyEntryToRow 10 legacyExited) (by decide) with h | ⟨e, he, _, hst⟩
    · exact absurd h (by decide)
    · have he2 : e = legacyExited := by simpa using he
      subst he2
      simpa [legacyExited] using hst
  · exact migration_status_orphans_sequences.2.1 migratedProcs.processes
      [ltOrphan, ltValid] "99" (by decide)
  · rw [show migrate_tools_db migratedProcs (some [ltOrphan, ltValid]) =
        migrate_tools_db { processes := migratedProcs.processes, tool_calls := [] }
          (some [ltOrphan, ltValid]) from rfl,
      (migration_status_orphans_sequences.2.2 migratedProcs.processes
        [ltOrphan, ltValid] "3").1]
    decide
  · rw [show migrate_tools_db migratedProcs (some [ltOrphan, ltValid]) =
        migrate_tools_db { processes := migratedProcs.processes, tool_calls := [] }
          (some [ltOrphan, ltValid]) from rfl,
      (migration_status_orphans_sequences.2.2 migratedProcs.processes
        [ltOrphan, ltValid] "3").2]
    decide

end Wortex
